import Mathlib

/-!
Shallow embedding of the GMPE-selection engine of usgs/pyshake
(`shakemap/utils/probs.py`, `shakemap/coremods/select.py`,
`shakemap/utils/layers.py`), with theorems settling the specification
claims about ramp evaluation, region and depth-layer probability
composition, subduction sub-type probabilities, geographic override
blending, and the fatal error conditions.  The floating-point numbers
of the Python code are modelled as rationals, fallible code as
`Except`, and the possibly-NaN Kagan angle as `Option ℚ`.
-/

namespace PyShake

/-- Ramp evaluator, `get_probability` of `shakemap/utils/probs.py`:
returns `p1` for `x ≤ x1`, `p2` for `x ≥ x2`, and otherwise the value
of the line through `(x1, p1)` and `(x2, p2)` at `x`, computed via
slope and intercept exactly as the source does. -/
def get_probability (x x1 p1 x2 p2 : ℚ) : ℚ :=
  if x ≤ x1 then p1
  else if x ≥ x2 then p2
  else
    let slope := (p1 - p2) / (x1 - x2)
    let intercept := p1 - slope * x1
    x * slope + intercept

/-- Configured ramp-parameter record (`x1`, `p1`, `x2`, `p2` entries of a
ramp section of `select.conf`). -/
structure RampCfg where
  x1 : ℚ
  p1 : ℚ
  x2 : ℚ
  p2 : ℚ

/-- Both endpoint probabilities of a configured ramp lie in `[0,1]`. -/
def RampCfg.probs01 (r : RampCfg) : Prop :=
  0 ≤ r.p1 ∧ r.p1 ≤ 1 ∧ 0 ≤ r.p2 ∧ r.p2 ≤ 1

/-- Ramp applied with a configured parameter record. -/
def evalRamp (r : RampCfg) (x : ℚ) : ℚ :=
  get_probability x r.x1 r.p1 r.x2 r.p2

/-- Distance fields of the STREC output used by `get_region_probs`
(`DistanceToActive`, `DistanceToStable`, `DistanceToVolcanic`,
`DistanceToSubduction`). -/
structure StrecDistances where
  DistanceToActive : ℚ
  DistanceToStable : ℚ
  DistanceToVolcanic : ℚ
  DistanceToSubduction : ℚ

/-- Top-level probability of a non-subduction category in
`get_region_probs`: `get_probability(distance, 0, 1, horizontal_buffer, 0)`. -/
def nonsub_region_prob (dist buf : ℚ) : ℚ :=
  get_probability dist 0 1 buf 0

/-- Top-level probability of the subduction category in
`get_region_probs`: `p1` is `0` when the distance is positive and `1`
otherwise, `x1 = 0`, `x2 = 100`, `p2 = 0`. -/
def sub_region_prob (dist : ℚ) : ℚ :=
  get_probability dist 0 (if 0 < dist then 0 else 1) 100 0

/-- Pre-normalization depth-layer probability of `get_region_probs`
(lines 164-170 of `probs.py`):
`get_probability(depth, min_depth[i], 1, max_depth[i] + vertical_buffer, 0)`. -/
def region_layer_prob (depth mind maxd vbuf : ℚ) : ℚ :=
  get_probability depth mind 1 (maxd + vbuf) 0

/-- Normalized top-level category probabilities of `get_region_probs`
for the four configured categories (acr, scr, volcanic, subduction):
each pre-normalization probability divided by their sum. -/
def region_norm_probs (s : StrecDistances) (bacr bscr bvol : ℚ) : ℚ × ℚ × ℚ × ℚ :=
  let a := nonsub_region_prob s.DistanceToActive bacr
  let b := nonsub_region_prob s.DistanceToStable bscr
  let v := nonsub_region_prob s.DistanceToVolcanic bvol
  let sd := sub_region_prob s.DistanceToSubduction
  let probsum := a + b + v + sd
  (a / probsum, b / probsum, v / probsum, sd / probsum)

/-- Modelled from the spec claim's wording, for comparison with the
source: a two-sided ramp of the event depth that rises linearly from 0
at `min_depth − vertical_buffer` to 1 at `min_depth`, stays 1 from
`min_depth` through `max_depth`, and falls linearly to 0 at
`max_depth + vertical_buffer`. -/
def twoSidedRamp (depth mind maxd vbuf : ℚ) : ℚ :=
  if depth < mind - vbuf then 0
  else if depth < mind then (depth - (mind - vbuf)) / vbuf
  else if depth ≤ maxd then 1
  else if depth < maxd + vbuf then 1 - (depth - maxd) / vbuf
  else 0

/-- Per-layer weight of `get_gmpes_from_depth` in
`shakemap/coremods/select.py` (lines 326-340): `some 1` inside
`[min_depth, max_depth]`, a rising ramp weight strictly between
`min_depth − vertical_buffer` and `min_depth`, a falling ramp weight
strictly between `max_depth` and `max_depth + vertical_buffer`, and
`none` (the GMPE is skipped) otherwise. -/
def select_layer_weight (depth vbuf mind maxd : ℚ) : Option ℚ :=
  if mind ≤ depth ∧ depth ≤ maxd then some 1
  else if mind - vbuf < depth ∧ depth < mind then some (1 - (mind - depth) / vbuf)
  else if maxd < depth ∧ depth < maxd + vbuf then some (1 - (depth - maxd) / vbuf)
  else none

/-- Accumulation loop of `get_gmpes_from_depth`: walk the region's
layers (GMPE name, min depth, max depth), appending the GMPE and its
weight whenever `select_layer_weight` yields one. -/
def depth_gmpes (depth vbuf : ℚ) : List (String × ℚ × ℚ) → List String × List ℚ
  | [] => ([], [])
  | (g, mind, maxd) :: rest =>
    let acc := depth_gmpes depth vbuf rest
    match select_layer_weight depth vbuf mind maxd with
    | some w => (g :: acc.1, w :: acc.2)
    | none => acc

/-- The function `get_gmpes_from_depth` of `select.py`: raises
(`Except.error`) when no layer matched the depth, otherwise returns the
collected GMPEs with weights normalized by their sum. -/
def get_gmpes_from_depth (depth vbuf : ℚ) (layers : List (String × ℚ × ℚ)) :
    Except String (List String × List ℚ) :=
  let gw := depth_gmpes depth vbuf layers
  if gw.1.length < 1 then Except.error "no valid gmpe for depth"
  else Except.ok (gw.1, gw.2.map (fun w => w / gw.2.sum))

/-- Input record for one tectonic region of `get_gmpes_by_region`:
the STREC distance, the configured buffers and depth layers of a
non-subduction region, and the subduction probabilities and per-subtype
GMPE lists of the subduction region. -/
structure RegionSpec where
  isSub : Bool
  distance : ℚ
  horizontal_buffer : ℚ
  vertical_buffer : ℚ
  layers : List (String × ℚ × ℚ)
  crustal_prob : ℚ
  interface_prob : ℚ
  intraslab_prob : ℚ
  crustal_gmpe : List String
  interface_gmpe : List String
  intraslab_gmpe : List String

/-- The function `get_gmpes_from_probs` of `select.py`: empty lists when
all three subduction probabilities are zero, otherwise each subtype
with positive probability contributes its GMPE list and one weight. -/
def get_gmpes_from_probs (r : RegionSpec) : List String × List ℚ :=
  if r.crustal_prob = 0 ∧ r.interface_prob = 0 ∧ r.intraslab_prob = 0 then ([], [])
  else
    let a := if 0 < r.crustal_prob then (r.crustal_gmpe, [r.crustal_prob]) else ([], [])
    let b := if 0 < r.interface_prob then (r.interface_gmpe, [r.interface_prob]) else ([], [])
    let c := if 0 < r.intraslab_prob then (r.intraslab_gmpe, [r.intraslab_prob]) else ([], [])
    (a.1 ++ b.1 ++ c.1, a.2 ++ b.2 ++ c.2)

/-- One iteration of the region loop of `get_gmpes_by_region`: the
region is skipped when its distance exceeds its buffer (for subduction
the buffer is the distance itself, so it is never skipped); otherwise
its GMPEs are appended with weights scaled by the region weight
`1 − distance/buffer` (or `1` when the buffer is zero), and the region
weight is added to the running total. -/
def region_step (depth : ℚ) (acc : List String × List ℚ × ℚ) (r : RegionSpec) :
    Except String (List String × List ℚ × ℚ) :=
  let reg_buff := if r.isSub then r.distance else r.horizontal_buffer
  if reg_buff < r.distance then Except.ok acc
  else
    match (if r.isSub then Except.ok (get_gmpes_from_probs r)
           else get_gmpes_from_depth depth r.vertical_buffer r.layers) with
    | Except.error m => Except.error m
    | Except.ok gw =>
      let reg_weight := if reg_buff ≠ 0 then 1 - r.distance / reg_buff else 1
      Except.ok (acc.1 ++ gw.1, acc.2.1 ++ gw.2.map (fun w => w * reg_weight),
                 acc.2.2 + reg_weight)

/-- Fold of `region_step` over the region list, propagating any raised
error as the Python exception would propagate. -/
def region_fold (depth : ℚ) : List RegionSpec → (List String × List ℚ × ℚ) →
    Except String (List String × List ℚ × ℚ)
  | [], acc => Except.ok acc
  | r :: rest, acc =>
    match region_step depth acc r with
    | Except.error m => Except.error m
    | Except.ok acc' => region_fold depth rest acc'

/-- The function `get_gmpes_by_region` of `select.py`: run the region
loop from empty accumulators, raise when no GMPE was collected, and
otherwise divide the weights by the total region weight. -/
def get_gmpes_by_region (depth : ℚ) (regions : List RegionSpec) :
    Except String (List String × List ℚ) :=
  match region_fold depth regions ([], [], 0) with
  | Except.error m => Except.error m
  | Except.ok acc =>
    if acc.1.length < 1 then Except.error "no valid tectonic_region"
    else Except.ok (acc.1, acc.2.1.map (fun w => w / acc.2.2))

/-- Subduction-specific STREC fields used by `get_subduction_probs`;
`KaganAngle` is `none` when the angle is NaN (undefined). -/
structure SubStrec where
  KaganAngle : Option ℚ
  SlabModelDepth : ℚ
  SlabModelDepthUncertainty : ℚ
  SlabModelMaximumDepth : ℚ

/-- Subduction section of the selection configuration. -/
structure SubductionCfg where
  p_int_hypo : RampCfg
  p_int_kagan : RampCfg
  p_kagan_default : ℚ
  p_int_sz : RampCfg
  p_int_mag : RampCfg
  p_int_dep_no_slab_upper : RampCfg
  p_int_dep_no_slab_lower : RampCfg
  p_crust_slab : RampCfg
  p_crust_hypo : RampCfg
  default_slab_depth : ℚ

/-- Result triple of `get_subduction_probs`. -/
structure SubProbs where
  crustal : ℚ
  interface : ℚ
  intraslab : ℚ

/-- Local `p_int_hypo` of `get_subduction_probs` (slab-present mode):
ramp of `|depth − slab_depth|` with both abscissae widened by the slab
depth uncertainty. -/
def p_int_hypo_val (strec : SubStrec) (depth : ℚ) (cfg : SubductionCfg) : ℚ :=
  get_probability |depth - strec.SlabModelDepth|
    (cfg.p_int_hypo.x1 + strec.SlabModelDepthUncertainty) cfg.p_int_hypo.p1
    (cfg.p_int_hypo.x2 + strec.SlabModelDepthUncertainty) cfg.p_int_hypo.p2

/-- Local `p_int_kagan` of `get_subduction_probs`: the configured ramp
at the Kagan angle when that angle is defined, the configured
`p_kagan_default` otherwise. -/
def p_int_kagan_val (strec : SubStrec) (cfg : SubductionCfg) : ℚ :=
  match strec.KaganAngle with
  | some kagan => evalRamp cfg.p_int_kagan kagan
  | none => cfg.p_kagan_default

/-- Local `p_int_sz` of `get_subduction_probs`: ramp of the depth with
both abscissae offset by the maximum interface depth. -/
def p_int_sz_val (strec : SubStrec) (depth : ℚ) (cfg : SubductionCfg) : ℚ :=
  get_probability depth
    (strec.SlabModelMaximumDepth + cfg.p_int_sz.x1) cfg.p_int_sz.p1
    (strec.SlabModelMaximumDepth + cfg.p_int_sz.x2) cfg.p_int_sz.p2

/-- Interface probability `p_int` of `get_subduction_probs`: in
slab-present mode the product of the hypocentral, Kagan and
seismogenic-zone factors; in slab-absent mode the magnitude ramp times
the sum of the upper and lower depth ramps. -/
def p_int_val (strec : SubStrec) (depth mag : ℚ) (cfg : SubductionCfg)
    (above_slab : Bool) : ℚ :=
  if above_slab then
    p_int_hypo_val strec depth cfg * p_int_kagan_val strec cfg *
      p_int_sz_val strec depth cfg
  else
    evalRamp cfg.p_int_mag mag *
      (evalRamp cfg.p_int_dep_no_slab_upper depth +
        evalRamp cfg.p_int_dep_no_slab_lower depth)

/-- Slab depth used by `get_subduction_probs`: the STREC slab model
depth in slab-present mode, the configured default otherwise. -/
def slab_depth_val (strec : SubStrec) (cfg : SubductionCfg) (above_slab : Bool) : ℚ :=
  if above_slab then strec.SlabModelDepth else cfg.default_slab_depth

/-- Crustal probability of `get_subduction_probs`:
`(1 − p_int) · p_crust_slab · p_crust_hypo`. -/
def p_crustal_val (strec : SubStrec) (depth mag : ℚ) (cfg : SubductionCfg)
    (above_slab : Bool) : ℚ :=
  (1 - p_int_val strec depth mag cfg above_slab) *
    evalRamp cfg.p_crust_slab (depth - slab_depth_val strec cfg above_slab) *
    evalRamp cfg.p_crust_hypo depth

/-- The function `get_subduction_probs` of `probs.py`: the returned
triple is crustal, interface, and the complement
`1 − (p_int + p_crustal)` as intraslab. -/
def get_subduction_probs (strec : SubStrec) (depth mag : ℚ) (cfg : SubductionCfg)
    (above_slab : Bool) : SubProbs :=
  ⟨p_crustal_val strec depth mag cfg above_slab,
   p_int_val strec depth mag cfg above_slab,
   1 - (p_int_val strec depth mag cfg above_slab +
        p_crustal_val strec depth mag cfg above_slab)⟩

/-- Geographic override layer as seen by `SelectModule.execute`: its
distance to the event, its configured horizontal buffer, and the GMPE
and weight lists recomputed from the configuration updated with the
layer's overrides. -/
structure GeoLayer where
  distance : ℚ
  buffer : ℚ
  gmpes : List String
  weights : List ℚ

/-- Initial minimum distance of the layer loop (`999999.9`). -/
def initial_min_dist : ℚ := 9999999 / 10

/-- Nearest-layer selection loop of `SelectModule.execute` (lines
101-113 of `select.py`): keep the layer with the strictly smallest
distance so far, breaking as soon as a distance of zero is found. -/
def find_nearest : List GeoLayer → ℚ → Option GeoLayer → Option GeoLayer
  | [], _, best => best
  | l :: rest, min_dist, best =>
    if l.distance < min_dist then
      if l.distance = 0 then some l
      else find_nearest rest l.distance (some l)
    else find_nearest rest min_dist best

/-- Geographic override step of `SelectModule.execute` (lines 114-160):
when the nearest layer is within its buffer, replace the composed set
by the layer's set at distance zero, and otherwise blend: the global
set scaled by `1 − lwgt` concatenated with the layer's set scaled by
`lwgt`, with `lwgt = 1 − distance/buffer` (`1` for a zero buffer);
outside the buffer the composed set passes through unchanged. -/
def geographic_override (gmpe_list : List String) (weight_list : List ℚ)
    (layers : List GeoLayer) : List String × List ℚ :=
  match find_nearest layers initial_min_dist none with
  | none => (gmpe_list, weight_list)
  | some l =>
    if l.distance = 0 ∨ l.distance ≤ l.buffer then
      if l.distance = 0 then (l.gmpes, l.weights)
      else
        let lwgt := if l.buffer = 0 then 1 else 1 - l.distance / l.buffer
        (gmpe_list ++ l.gmpes,
         weight_list.map (fun w => w * (1 - lwgt)) ++
           l.weights.map (fun w => w * lwgt))
    else (gmpe_list, weight_list)

end PyShake

namespace PyShake

/-- On the interpolation branch (`x1 < x < x2`) the slope/intercept
formula of the source equals the convex-combination closed form. -/
lemma get_probability_interp (x x1 p1 x2 p2 : ℚ) (h1 : x1 < x) (h2 : x < x2) :
    get_probability x x1 p1 x2 p2 = ((x2 - x) * p1 + (x - x1) * p2) / (x2 - x1) := by
  have hlt : x1 < x2 := h1.trans h2
  have hne : x1 - x2 ≠ 0 := by
    intro h
    have : x1 = x2 := by linarith
    exact absurd this (ne_of_lt hlt)
  have hne' : x2 - x1 ≠ 0 := by
    intro h
    have : x1 = x2 := by linarith
    exact absurd this (ne_of_lt hlt)
  unfold get_probability
  rw [if_neg (not_le.mpr h1), if_neg (not_le.mpr h2)]
  field_simp
  ring

/-- The ramp output lies in `[0,1]` whenever both endpoint
probabilities do, for arbitrary `x`, `x1`, `x2`. -/
lemma get_probability_mem_Icc (x x1 p1 x2 p2 : ℚ)
    (hp1 : 0 ≤ p1) (hp1' : p1 ≤ 1) (hp2 : 0 ≤ p2) (hp2' : p2 ≤ 1) :
    0 ≤ get_probability x x1 p1 x2 p2 ∧ get_probability x x1 p1 x2 p2 ≤ 1 := by
  by_cases hA : x ≤ x1
  · simp only [get_probability, if_pos hA]
    exact ⟨hp1, hp1'⟩
  · by_cases hB : x ≥ x2
    · simp only [get_probability, if_neg hA, if_pos hB]
      exact ⟨hp2, hp2'⟩
    · have h1 : x1 < x := lt_of_not_le hA
      have h2 : x < x2 := lt_of_not_le (fun h => hB h)
      rw [get_probability_interp x x1 p1 x2 p2 h1 h2]
      have hd : (0:ℚ) < x2 - x1 := by linarith
      constructor
      · apply div_nonneg _ (le_of_lt hd)
        have := mul_nonneg (by linarith : (0:ℚ) ≤ x2 - x) hp1
        have := mul_nonneg (by linarith : (0:ℚ) ≤ x - x1) hp2
        linarith
      · rw [div_le_one hd]
        have h3 : (x2 - x) * p1 ≤ (x2 - x) * 1 :=
          mul_le_mul_of_nonneg_left hp1' (by linarith)
        have h4 : (x - x1) * p2 ≤ (x - x1) * 1 :=
          mul_le_mul_of_nonneg_left hp2' (by linarith)
        nlinarith

/-- Nonnegativity of the ramp output when both endpoints are nonnegative. -/
lemma get_probability_nonneg (x x1 p1 x2 p2 : ℚ)
    (hp1 : 0 ≤ p1) (hp2 : 0 ≤ p2) :
    0 ≤ get_probability x x1 p1 x2 p2 := by
  by_cases hA : x ≤ x1
  · simp only [get_probability, if_pos hA]; exact hp1
  · by_cases hB : x ≥ x2
    · simp only [get_probability, if_neg hA, if_pos hB]; exact hp2
    · have h1 : x1 < x := lt_of_not_le hA
      have h2 : x < x2 := lt_of_not_le (fun h => hB h)
      rw [get_probability_interp x x1 p1 x2 p2 h1 h2]
      apply div_nonneg _ (by linarith)
      have := mul_nonneg (by linarith : (0:ℚ) ≤ x2 - x) hp1
      have := mul_nonneg (by linarith : (0:ℚ) ≤ x - x1) hp2
      linarith

/-- C4: the ramp function returns `p1` when `x ≤ x1`, `p2` when `x ≥ x2`,
and the linear interpolation between `(x1,p1)` and `(x2,p2)` otherwise
(stated for `x1 < x2`); and the three concrete regression values hold:
`probability(10,0,0.9,20,0.1) = 0.5`, `probability(0,0,0.9,20,0.1) = 0.9`,
`probability(40,0,0.9,20,0.1) = 0.1`. -/
theorem ramp_spec (x x1 p1 x2 p2 : ℚ) (hx : x1 < x2) :
    (x ≤ x1 → get_probability x x1 p1 x2 p2 = p1) ∧
    (x2 ≤ x → get_probability x x1 p1 x2 p2 = p2) ∧
    (x1 < x → x < x2 →
      get_probability x x1 p1 x2 p2 = ((x2 - x) * p1 + (x - x1) * p2) / (x2 - x1)) ∧
    get_probability 10 0 (9/10) 20 (1/10) = 1/2 ∧
    get_probability 0 0 (9/10) 20 (1/10) = 9/10 ∧
    get_probability 40 0 (9/10) 20 (1/10) = 1/10 := by
  refine ⟨?_, ?_, ?_, by norm_num [get_probability], by norm_num [get_probability],
    by norm_num [get_probability]⟩
  · intro h
    simp [get_probability, if_pos h]
  · intro h
    have hx1 : ¬ x ≤ x1 := by
      intro hc; exact absurd (lt_of_lt_of_le hx h) (not_lt.mpr hc)
    simp [get_probability, if_neg hx1, if_pos h]
  · exact get_probability_interp x x1 p1 x2 p2

/-- Witness for C4 at `x = 10, x1 = 0, p1 = 0.9, x2 = 20, p2 = 0.1`. -/
theorem ramp_spec_witness :
    get_probability 10 0 (9/10) 20 (1/10) = 1/2 :=
  (ramp_spec 10 0 (9/10) 20 (1/10) (by norm_num)).2.2.2.1

/-- C10: the ramp function is total; the interpolation branch is only
taken when `x1 < x < x2`, which forces `x1 - x2 ≠ 0`, so the slope's
denominator is never zero; in particular when `x1 = x2` every input
returns either `p1` or `p2`. -/
theorem ramp_total (x x1 p1 x2 p2 : ℚ) :
    (x1 = x2 →
      get_probability x x1 p1 x2 p2 = p1 ∨ get_probability x x1 p1 x2 p2 = p2) ∧
    (¬ x ≤ x1 → ¬ x ≥ x2 → x1 < x ∧ x < x2 ∧ x1 - x2 ≠ 0) := by
  constructor
  · intro heq
    by_cases hA : x ≤ x1
    · left; simp [get_probability, if_pos hA]
    · right
      have hB : x ≥ x2 := le_of_lt (heq ▸ lt_of_not_le hA)
      simp [get_probability, if_neg hA, if_pos hB]
  · intro hA hB
    have h1 : x1 < x := lt_of_not_le hA
    have h2 : x < x2 := lt_of_not_le (fun h => hB h)
    exact ⟨h1, h2, by intro h; linarith⟩

/-- Witness for C10 at the degenerate input `x1 = x2 = 3`. -/
theorem ramp_total_witness :
    get_probability 5 3 1 3 0 = 1 ∨ get_probability 5 3 1 3 0 = 0 :=
  (ramp_total 5 3 1 3 0).1 rfl

/-- C3: whenever at least one of the four pre-normalization category
probabilities is positive, the four normalized top-level category
probabilities returned by `get_region_probs` sum to exactly 1. -/
theorem region_top_level_sum_one (s : StrecDistances) (bacr bscr bvol : ℚ)
    (h : 0 < nonsub_region_prob s.DistanceToActive bacr ∨
         0 < nonsub_region_prob s.DistanceToStable bscr ∨
         0 < nonsub_region_prob s.DistanceToVolcanic bvol ∨
         0 < sub_region_prob s.DistanceToSubduction) :
    (region_norm_probs s bacr bscr bvol).1 +
      (region_norm_probs s bacr bscr bvol).2.1 +
      (region_norm_probs s bacr bscr bvol).2.2.1 +
      (region_norm_probs s bacr bscr bvol).2.2.2 = 1 := by
  have ha : 0 ≤ nonsub_region_prob s.DistanceToActive bacr :=
    get_probability_nonneg _ _ _ _ _ (by norm_num) (by norm_num)
  have hb : 0 ≤ nonsub_region_prob s.DistanceToStable bscr :=
    get_probability_nonneg _ _ _ _ _ (by norm_num) (by norm_num)
  have hv : 0 ≤ nonsub_region_prob s.DistanceToVolcanic bvol :=
    get_probability_nonneg _ _ _ _ _ (by norm_num) (by norm_num)
  have hs : 0 ≤ sub_region_prob s.DistanceToSubduction := by
    apply get_probability_nonneg
    · by_cases h0 : 0 < s.DistanceToSubduction <;> simp [h0]
    · norm_num
  set a := nonsub_region_prob s.DistanceToActive bacr with hadef
  set b := nonsub_region_prob s.DistanceToStable bscr with hbdef
  set v := nonsub_region_prob s.DistanceToVolcanic bvol with hvdef
  set sd := sub_region_prob s.DistanceToSubduction with hsdef
  have hsum : 0 < a + b + v + sd := by
    rcases h with h | h | h | h <;> linarith
  have hne : a + b + v + sd ≠ 0 := ne_of_gt hsum
  show a / (a + b + v + sd) + b / (a + b + v + sd) + v / (a + b + v + sd) +
    sd / (a + b + v + sd) = 1
  field_simp

/-- Witness for C3: the event is inside the active region
(distance 0), far from the others. -/
theorem region_top_level_sum_one_witness :
    (region_norm_probs ⟨0, 300, 500, 700⟩ 100 100 100).1 +
      (region_norm_probs ⟨0, 300, 500, 700⟩ 100 100 100).2.1 +
      (region_norm_probs ⟨0, 300, 500, 700⟩ 100 100 100).2.2.1 +
      (region_norm_probs ⟨0, 300, 500, 700⟩ 100 100 100).2.2.2 = 1 :=
  region_top_level_sum_one ⟨0, 300, 500, 700⟩ 100 100 100
    (Or.inl (by norm_num [nonsub_region_prob, get_probability]))

/-- A weight emitted by `select_layer_weight` is strictly positive when
the vertical buffer is positive. -/
lemma select_layer_weight_pos (depth vbuf mind maxd w : ℚ) (hv : 0 < vbuf)
    (hw : select_layer_weight depth vbuf mind maxd = some w) : 0 < w := by
  unfold select_layer_weight at hw
  by_cases h1 : mind ≤ depth ∧ depth ≤ maxd
  · rw [if_pos h1] at hw
    cases hw
    norm_num
  · rw [if_neg h1] at hw
    by_cases h2 : mind - vbuf < depth ∧ depth < mind
    · rw [if_pos h2] at hw
      cases hw
      rw [sub_pos, div_lt_one hv]
      linarith [h2.1]
    · rw [if_neg h2] at hw
      by_cases h3 : maxd < depth ∧ depth < maxd + vbuf
      · rw [if_pos h3] at hw
        cases hw
        rw [sub_pos, div_lt_one hv]
        linarith [h3.2]
      · rw [if_neg h3] at hw
        cases hw

/-- The per-layer weight of `get_gmpes_from_depth` (with a skipped
layer counted as weight 0) equals the two-sided ramp of the claim, for
a positive vertical buffer and `min_depth ≤ max_depth`. -/
lemma select_layer_weight_eq_twoSidedRamp (depth vbuf mind maxd : ℚ)
    (hv : 0 < vbuf) (hm : mind ≤ maxd) :
    (select_layer_weight depth vbuf mind maxd).getD 0 =
      twoSidedRamp depth mind maxd vbuf := by
  unfold select_layer_weight twoSidedRamp
  by_cases h1 : mind ≤ depth ∧ depth ≤ maxd
  · rw [if_pos h1]
    rw [if_neg (by linarith [h1.1] : ¬ depth < mind - vbuf),
        if_neg (by linarith [h1.1] : ¬ depth < mind),
        if_pos h1.2]
    rfl
  · rw [if_neg h1]
    by_cases h2 : mind - vbuf < depth ∧ depth < mind
    · rw [if_pos h2]
      rw [if_neg (by linarith [h2.1] : ¬ depth < mind - vbuf), if_pos h2.2]
      show 1 - (mind - depth) / vbuf = (depth - (mind - vbuf)) / vbuf
      field_simp
      ring
    · rw [if_neg h2]
      by_cases h3 : maxd < depth ∧ depth < maxd + vbuf
      · rw [if_pos h3]
        rw [if_neg (by linarith [h3.1] : ¬ depth < mind - vbuf),
            if_neg (by linarith [h3.1] : ¬ depth < mind),
            if_neg (by linarith [h3.1] : ¬ depth ≤ maxd),
            if_pos h3.2]
        rfl
      · rw [if_neg h3]
        push_neg at h1 h2 h3
        by_cases hlow : depth < mind
        · have hle : depth ≤ mind - vbuf := by
            by_contra hc
            push_neg at hc
            exact absurd (h2 hc) (not_le.mpr hlow)
          rcases lt_or_eq_of_le hle with hlt | heq
          · rw [if_pos hlt]
            rfl
          · rw [if_neg (by rw [heq]; exact lt_irrefl _), if_pos hlow, heq]
            simp
        · push_neg at hlow
          have hhigh : maxd < depth := h1 hlow
          have hge : maxd + vbuf ≤ depth := h3 hhigh
          rw [if_neg (by linarith : ¬ depth < mind - vbuf),
              if_neg (by linarith : ¬ depth < mind),
              if_neg (by linarith : ¬ depth ≤ maxd),
              if_neg (by linarith : ¬ depth < maxd + vbuf)]
          rfl

/-- C2 counterexample: in `get_region_probs` the pre-normalization
depth-layer probability is not the claimed two-sided ramp.  With
`min_depth = 5`, `max_depth = 10`, `vertical_buffer = 5`: at depth 0
the code yields 1 where the claimed ramp is 0, and at depth 7 (inside
`[min_depth, max_depth]`, where the claim says the probability stays 1)
the code yields `8/10`. -/
theorem region_layer_prob_not_two_sided :
    region_layer_prob 0 5 10 5 = 1 ∧ twoSidedRamp 0 5 10 5 = 0 ∧
    region_layer_prob 7 5 10 5 = 8/10 ∧ twoSidedRamp 7 5 10 5 = 1 := by
  refine ⟨?_, ?_, ?_, ?_⟩ <;>
    norm_num [region_layer_prob, twoSidedRamp, get_probability]

/-- C2 (amended): the two-sided depth ramp holds for the per-layer
weights of `get_gmpes_from_depth` in `select.py` (a skipped layer
counting as weight 0), for a positive vertical buffer and
`min_depth ≤ max_depth`; in `get_region_probs` of `probs.py` the
pre-normalization layer probability is instead the one-sided ramp
`get_probability(depth, min_depth, 1, max_depth + vertical_buffer, 0)`,
which equals 1 for every depth at or below `min_depth`. -/
theorem depth_layer_two_sided_ramp (depth mind maxd vbuf : ℚ)
    (hv : 0 < vbuf) (hm : mind ≤ maxd) :
    (select_layer_weight depth vbuf mind maxd).getD 0 =
      twoSidedRamp depth mind maxd vbuf ∧
    (depth ≤ mind → region_layer_prob depth mind maxd vbuf = 1) := by
  refine ⟨select_layer_weight_eq_twoSidedRamp depth vbuf mind maxd hv hm, ?_⟩
  intro h
  simp [region_layer_prob, get_probability, if_pos h]

/-- Witness for C2 (amended) at depth 3 with layer `[5, 10]` and
vertical buffer 5. -/
theorem depth_layer_two_sided_ramp_witness :
    (select_layer_weight 3 5 5 10).getD 0 = twoSidedRamp 3 5 10 5 ∧
    ((3:ℚ) ≤ 5 → region_layer_prob 3 5 10 5 = 1) :=
  depth_layer_two_sided_ramp 3 5 10 5 (by norm_num) (by norm_num)

/-- An `evalRamp` output lies in `[0,1]` when the configured endpoint
probabilities do. -/
lemma evalRamp_mem_Icc (r : RampCfg) (x : ℚ) (h : r.probs01) :
    0 ≤ evalRamp r x ∧ evalRamp r x ≤ 1 :=
  get_probability_mem_Icc x r.x1 r.p1 r.x2 r.p2 h.1 h.2.1 h.2.2.1 h.2.2.2

/-- The slab-present interface probability `p_int` lies in `[0,1]` when
the hypocentral and seismogenic-zone ramps, the Kagan ramp and the
Kagan default all have probabilities in `[0,1]`. -/
lemma p_int_val_mem_Icc (strec : SubStrec) (depth mag : ℚ) (cfg : SubductionCfg)
    (hhypo : cfg.p_int_hypo.probs01) (hkagan : cfg.p_int_kagan.probs01)
    (hsz : cfg.p_int_sz.probs01)
    (hdef : 0 ≤ cfg.p_kagan_default) (hdef' : cfg.p_kagan_default ≤ 1) :
    0 ≤ p_int_val strec depth mag cfg true ∧ p_int_val strec depth mag cfg true ≤ 1 := by
  have hH : 0 ≤ p_int_hypo_val strec depth cfg ∧ p_int_hypo_val strec depth cfg ≤ 1 :=
    get_probability_mem_Icc _ _ _ _ _ hhypo.1 hhypo.2.1 hhypo.2.2.1 hhypo.2.2.2
  have hK : 0 ≤ p_int_kagan_val strec cfg ∧ p_int_kagan_val strec cfg ≤ 1 := by
    unfold p_int_kagan_val
    cases strec.KaganAngle with
    | none => exact ⟨hdef, hdef'⟩
    | some k => exact evalRamp_mem_Icc cfg.p_int_kagan k hkagan
  have hS : 0 ≤ p_int_sz_val strec depth cfg ∧ p_int_sz_val strec depth cfg ≤ 1 :=
    get_probability_mem_Icc _ _ _ _ _ hsz.1 hsz.2.1 hsz.2.2.1 hsz.2.2.2
  unfold p_int_val
  rw [if_pos rfl]
  obtain ⟨h1, h2⟩ := hH
  obtain ⟨h3, h4⟩ := hK
  obtain ⟨h5, h6⟩ := hS
  have h13 : p_int_hypo_val strec depth cfg * p_int_kagan_val strec cfg ≤ 1 := by
    calc p_int_hypo_val strec depth cfg * p_int_kagan_val strec cfg
        ≤ 1 * p_int_kagan_val strec cfg := mul_le_mul_of_nonneg_right h2 h3
      _ = p_int_kagan_val strec cfg := one_mul _
      _ ≤ 1 := h4
  have h13' : 0 ≤ p_int_hypo_val strec depth cfg * p_int_kagan_val strec cfg :=
    mul_nonneg h1 h3
  constructor
  · exact mul_nonneg h13' h5
  · calc p_int_hypo_val strec depth cfg * p_int_kagan_val strec cfg *
        p_int_sz_val strec depth cfg
        ≤ 1 * p_int_sz_val strec depth cfg := mul_le_mul_of_nonneg_right h13 h5
      _ = p_int_sz_val strec depth cfg := one_mul _
      _ ≤ 1 := h6

/-- C1 counterexample: `get_subduction_probs` performs no clamping and
no renormalization.  In slab-absent mode, with every ramp configured as
the constant 1 (endpoints `p1 = p2 = 1`, which lie in `[0,1]`), the
interface probability is `1 · (1 + 1) = 2` and the crustal probability
is `(1 − 2) · 1 · 1 = −1`, both outside `[0,1]` in the returned triple. -/
theorem subduction_no_clamping :
    (get_subduction_probs ⟨none, 0, 0, 0⟩ 10 8
      ⟨⟨0, 0, 1, 0⟩, ⟨0, 0, 1, 0⟩, 0, ⟨0, 0, 1, 0⟩, ⟨0, 1, 1, 1⟩, ⟨0, 1, 1, 1⟩,
       ⟨0, 1, 1, 1⟩, ⟨0, 1, 1, 1⟩, ⟨0, 1, 1, 1⟩, 20⟩ false).interface = 2 ∧
    (get_subduction_probs ⟨none, 0, 0, 0⟩ 10 8
      ⟨⟨0, 0, 1, 0⟩, ⟨0, 0, 1, 0⟩, 0, ⟨0, 0, 1, 0⟩, ⟨0, 1, 1, 1⟩, ⟨0, 1, 1, 1⟩,
       ⟨0, 1, 1, 1⟩, ⟨0, 1, 1, 1⟩, ⟨0, 1, 1, 1⟩, 20⟩ false).crustal = -1 := by
  constructor <;>
    norm_num [get_subduction_probs, p_crustal_val, p_int_val, slab_depth_val,
      evalRamp, get_probability]

/-- C1 (amended): the triple returned by `get_subduction_probs` always
sums to exactly 1 (the intraslab term is the complement of the other
two by construction), in both slab-present and slab-absent modes; no
clamping or renormalization is performed.  In slab-present mode, when
every relevant configured ramp endpoint probability and the Kagan
default lie in `[0,1]`, each of the three terms lies in `[0,1]`. -/
theorem subduction_probs_sum_and_range (strec : SubStrec) (depth mag : ℚ)
    (cfg : SubductionCfg) (above_slab : Bool) :
    (get_subduction_probs strec depth mag cfg above_slab).crustal +
      (get_subduction_probs strec depth mag cfg above_slab).interface +
      (get_subduction_probs strec depth mag cfg above_slab).intraslab = 1 ∧
    (above_slab = true →
      cfg.p_int_hypo.probs01 → cfg.p_int_kagan.probs01 → cfg.p_int_sz.probs01 →
      cfg.p_crust_slab.probs01 → cfg.p_crust_hypo.probs01 →
      0 ≤ cfg.p_kagan_default → cfg.p_kagan_default ≤ 1 →
      (0 ≤ (get_subduction_probs strec depth mag cfg above_slab).crustal ∧
        (get_subduction_probs strec depth mag cfg above_slab).crustal ≤ 1) ∧
      (0 ≤ (get_subduction_probs strec depth mag cfg above_slab).interface ∧
        (get_subduction_probs strec depth mag cfg above_slab).interface ≤ 1) ∧
      (0 ≤ (get_subduction_probs strec depth mag cfg above_slab).intraslab ∧
        (get_subduction_probs strec depth mag cfg above_slab).intraslab ≤ 1)) := by
  constructor
  · show p_crustal_val strec depth mag cfg above_slab +
      p_int_val strec depth mag cfg above_slab +
      (1 - (p_int_val strec depth mag cfg above_slab +
            p_crustal_val strec depth mag cfg above_slab)) = 1
    ring
  · rintro rfl hhypo hkagan hsz hcs hch hdef hdef'
    obtain ⟨hi0, hi1⟩ := p_int_val_mem_Icc strec depth mag cfg hhypo hkagan hsz hdef hdef'
    obtain ⟨hs0, hs1⟩ := evalRamp_mem_Icc cfg.p_crust_slab
      (depth - slab_depth_val strec cfg true) hcs
    obtain ⟨hh0, hh1⟩ := evalRamp_mem_Icc cfg.p_crust_hypo depth hch
    have hc0 : 0 ≤ p_crustal_val strec depth mag cfg true :=
      mul_nonneg (mul_nonneg (by linarith) hs0) hh0
    have hsh : evalRamp cfg.p_crust_slab (depth - slab_depth_val strec cfg true) *
        evalRamp cfg.p_crust_hypo depth ≤ 1 := by
      calc evalRamp cfg.p_crust_slab (depth - slab_depth_val strec cfg true) *
          evalRamp cfg.p_crust_hypo depth
          ≤ 1 * evalRamp cfg.p_crust_hypo depth := mul_le_mul_of_nonneg_right hs1 hh0
        _ = evalRamp cfg.p_crust_hypo depth := one_mul _
        _ ≤ 1 := hh1
    have hsh' : 0 ≤ evalRamp cfg.p_crust_slab (depth - slab_depth_val strec cfg true) *
        evalRamp cfg.p_crust_hypo depth := mul_nonneg hs0 hh0
    have hcle : p_crustal_val strec depth mag cfg true ≤
        1 - p_int_val strec depth mag cfg true := by
      unfold p_crustal_val
      rw [mul_assoc]
      calc (1 - p_int_val strec depth mag cfg true) *
          (evalRamp cfg.p_crust_slab (depth - slab_depth_val strec cfg true) *
            evalRamp cfg.p_crust_hypo depth)
          ≤ (1 - p_int_val strec depth mag cfg true) * 1 :=
            mul_le_mul_of_nonneg_left hsh (by linarith)
        _ = 1 - p_int_val strec depth mag cfg true := mul_one _
    refine ⟨⟨hc0, ?_⟩, ⟨hi0, hi1⟩, ?_, ?_⟩
    · show p_crustal_val strec depth mag cfg true ≤ 1
      linarith
    · show 0 ≤ 1 - (p_int_val strec depth mag cfg true +
        p_crustal_val strec depth mag cfg true)
      linarith
    · show 1 - (p_int_val strec depth mag cfg true +
        p_crustal_val strec depth mag cfg true) ≤ 1
      linarith

/-- Witness for C1 (amended): a slab-present evaluation with all
configured probabilities in `[0,1]`; the triple sums to 1 and each term
lies in `[0,1]`. -/
theorem subduction_probs_sum_and_range_witness :
    ((get_subduction_probs ⟨some 15, 30, 5, 60⟩ 25 7
        ⟨⟨10, 1, 30, 0⟩, ⟨30, 1, 60, 0⟩, 1/2, ⟨-10, 1, 10, 0⟩, ⟨7, 0, 8, 1⟩,
         ⟨10, 1, 30, 0⟩, ⟨60, 0, 80, 1⟩, ⟨-5, 1, 5, 0⟩, ⟨20, 1, 40, 0⟩, 20⟩
        true).crustal +
      (get_subduction_probs ⟨some 15, 30, 5, 60⟩ 25 7
        ⟨⟨10, 1, 30, 0⟩, ⟨30, 1, 60, 0⟩, 1/2, ⟨-10, 1, 10, 0⟩, ⟨7, 0, 8, 1⟩,
         ⟨10, 1, 30, 0⟩, ⟨60, 0, 80, 1⟩, ⟨-5, 1, 5, 0⟩, ⟨20, 1, 40, 0⟩, 20⟩
        true).interface +
      (get_subduction_probs ⟨some 15, 30, 5, 60⟩ 25 7
        ⟨⟨10, 1, 30, 0⟩, ⟨30, 1, 60, 0⟩, 1/2, ⟨-10, 1, 10, 0⟩, ⟨7, 0, 8, 1⟩,
         ⟨10, 1, 30, 0⟩, ⟨60, 0, 80, 1⟩, ⟨-5, 1, 5, 0⟩, ⟨20, 1, 40, 0⟩, 20⟩
        true).intraslab = 1) ∧
    (0 ≤ (get_subduction_probs ⟨some 15, 30, 5, 60⟩ 25 7
        ⟨⟨10, 1, 30, 0⟩, ⟨30, 1, 60, 0⟩, 1/2, ⟨-10, 1, 10, 0⟩, ⟨7, 0, 8, 1⟩,
         ⟨10, 1, 30, 0⟩, ⟨60, 0, 80, 1⟩, ⟨-5, 1, 5, 0⟩, ⟨20, 1, 40, 0⟩, 20⟩
        true).crustal) := by
  have h := subduction_probs_sum_and_range ⟨some 15, 30, 5, 60⟩ 25 7
    ⟨⟨10, 1, 30, 0⟩, ⟨30, 1, 60, 0⟩, 1/2, ⟨-10, 1, 10, 0⟩, ⟨7, 0, 8, 1⟩,
     ⟨10, 1, 30, 0⟩, ⟨60, 0, 80, 1⟩, ⟨-5, 1, 5, 0⟩, ⟨20, 1, 40, 0⟩, 20⟩ true
  refine ⟨h.1, ?_⟩
  have h2 := h.2 rfl (by norm_num [RampCfg.probs01]) (by norm_num [RampCfg.probs01])
    (by norm_num [RampCfg.probs01]) (by norm_num [RampCfg.probs01])
    (by norm_num [RampCfg.probs01]) (by norm_num) (by norm_num)
  exact h2.1.1

/-- C8: in slab-present mode an undefined (NaN) Kagan angle is not an
error: the Kagan interface factor is the configured default constant
`p_kagan_default`, and for a defined Kagan angle it is the configured
ramp at that angle; in both cases the returned interface probability is
the product of the hypocentral factor, the Kagan factor and the
seismogenic-zone factor. -/
theorem kagan_nan_default (strec : SubStrec) (depth mag : ℚ) (cfg : SubductionCfg) :
    (get_subduction_probs { strec with KaganAngle := none } depth mag cfg true).interface
      = p_int_hypo_val { strec with KaganAngle := none } depth cfg *
        cfg.p_kagan_default *
        p_int_sz_val { strec with KaganAngle := none } depth cfg ∧
    ∀ k : ℚ,
      (get_subduction_probs { strec with KaganAngle := some k } depth mag cfg true).interface
        = p_int_hypo_val { strec with KaganAngle := some k } depth cfg *
          evalRamp cfg.p_int_kagan k *
          p_int_sz_val { strec with KaganAngle := some k } depth cfg := by
  constructor
  · show p_int_val { strec with KaganAngle := none } depth mag cfg true = _
    unfold p_int_val p_int_kagan_val
    rw [if_pos rfl]
  · intro k
    show p_int_val { strec with KaganAngle := some k } depth mag cfg true = _
    unfold p_int_val p_int_kagan_val
    rw [if_pos rfl]

/-- A layer whose two-sided ramp probability is zero is skipped by
`get_gmpes_from_depth`. -/
lemma select_layer_weight_none_of_ramp_zero (depth vbuf mind maxd : ℚ)
    (hv : 0 < vbuf) (hm : mind ≤ maxd)
    (hz : twoSidedRamp depth mind maxd vbuf = 0) :
    select_layer_weight depth vbuf mind maxd = none := by
  cases hw : select_layer_weight depth vbuf mind maxd with
  | none => rfl
  | some w =>
    have hpos := select_layer_weight_pos depth vbuf mind maxd w hv hw
    have heq := select_layer_weight_eq_twoSidedRamp depth vbuf mind maxd hv hm
    rw [hw, hz] at heq
    simp only [Option.getD_some] at heq
    rw [heq] at hpos
    exact absurd hpos (lt_irrefl 0)

/-- When every layer is skipped, the accumulation loop of
`get_gmpes_from_depth` collects nothing. -/
lemma depth_gmpes_nil (depth vbuf : ℚ) (layers : List (String × ℚ × ℚ))
    (h : ∀ l ∈ layers, select_layer_weight depth vbuf l.2.1 l.2.2 = none) :
    depth_gmpes depth vbuf layers = ([], []) := by
  induction layers with
  | nil => rfl
  | cons l rest ih =>
    obtain ⟨g, mind, maxd⟩ := l
    have hl := h (g, mind, maxd) (List.mem_cons_self _ _)
    simp only [depth_gmpes]
    rw [hl]
    exact ih (fun x hx => h x (List.mem_cons_of_mem _ hx))

/-- A region whose layers are all skipped makes `region_step` raise,
whatever has been accumulated so far, provided the region is not
subduction and is within its horizontal buffer. -/
lemma region_step_error_zero_layers (depth : ℚ) (r : RegionSpec)
    (hsub : r.isSub = false) (hdist : r.distance ≤ r.horizontal_buffer)
    (hnil : depth_gmpes depth r.vertical_buffer r.layers = ([], [])) :
    ∀ acc, region_step depth acc r = Except.error "no valid gmpe for depth" := by
  intro acc
  unfold region_step
  rw [hsub]
  simp only [Bool.false_eq_true, if_false]
  rw [if_neg (not_lt.mpr hdist)]
  have herr : get_gmpes_from_depth depth r.vertical_buffer r.layers =
      Except.error "no valid gmpe for depth" := by
    unfold get_gmpes_from_depth
    rw [hnil]
    rfl
  rw [herr]

/-- An error raised while processing any region of the list propagates
to the result of the whole region fold. -/
lemma region_fold_error_of_mem (depth : ℚ) (regions : List RegionSpec)
    (r : RegionSpec) (hmem : r ∈ regions) (m : String)
    (herr : ∀ acc, region_step depth acc r = Except.error m) :
    ∀ acc, ∃ m', region_fold depth regions acc = Except.error m' := by
  induction regions with
  | nil => exact absurd hmem (List.not_mem_nil r)
  | cons a rest ih =>
    intro acc
    rcases List.mem_cons.mp hmem with heq | htail
    · subst heq
      refine ⟨m, ?_⟩
      simp only [region_fold]
      rw [herr acc]
    · cases hstep : region_step depth acc a with
      | error m' =>
        refine ⟨m', ?_⟩
        simp only [region_fold]
        rw [hstep]
      | ok acc' =>
        obtain ⟨m', hm'⟩ := ih htail acc'
        refine ⟨m', ?_⟩
        simp only [region_fold]
        rw [hstep]
        exact hm'

/-- C6: when a non-subduction category is within its horizontal buffer
(so it has nonzero top-level weight) but every one of its depth layers
has zero two-sided ramp probability, `get_gmpes_by_region` raises a
fatal error: no weighted set is returned, partial or otherwise. -/
theorem zero_layer_category_fatal (depth : ℚ) (regions : List RegionSpec)
    (r : RegionSpec) (hmem : r ∈ regions) (hsub : r.isSub = false)
    (hdist : r.distance < r.horizontal_buffer)
    (hv : 0 < r.vertical_buffer)
    (hm : ∀ l ∈ r.layers, l.2.1 ≤ l.2.2)
    (hzero : ∀ l ∈ r.layers, twoSidedRamp depth l.2.1 l.2.2 r.vertical_buffer = 0) :
    ∃ m, get_gmpes_by_region depth regions = Except.error m := by
  have hnone : ∀ l ∈ r.layers,
      select_layer_weight depth r.vertical_buffer l.2.1 l.2.2 = none :=
    fun l hl => select_layer_weight_none_of_ramp_zero depth r.vertical_buffer
      l.2.1 l.2.2 hv (hm l hl) (hzero l hl)
  have hnil := depth_gmpes_nil depth r.vertical_buffer r.layers hnone
  have hstep := region_step_error_zero_layers depth r hsub (le_of_lt hdist) hnil
  obtain ⟨m', hm'⟩ := region_fold_error_of_mem depth regions r hmem
    "no valid gmpe for depth" hstep ([], [], 0)
  refine ⟨m', ?_⟩
  unfold get_gmpes_by_region
  rw [hm']

/-- Witness for C6: a single active-crustal region at distance 0 with
buffer 100, one depth layer `[5, 10]` with vertical buffer 5, evaluated
at depth 50 where the layer's two-sided ramp is zero. -/
theorem zero_layer_category_fatal_witness :
    ∃ m, get_gmpes_by_region 50
      [⟨false, 0, 100, 5, [("GmpeA", 5, 10)], 0, 0, 0, [], [], []⟩] =
      Except.error m := by
  refine zero_layer_category_fatal 50 _
    ⟨false, 0, 100, 5, [("GmpeA", 5, 10)], 0, 0, 0, [], [], []⟩
    (List.mem_singleton.mpr rfl) rfl (by norm_num) (by norm_num) ?_ ?_
  · intro l hl
    rw [List.mem_singleton.mp hl]
    norm_num
  · intro l hl
    rw [List.mem_singleton.mp hl]
    norm_num [twoSidedRamp]

/-- When no region is reachable (each non-subduction region farther
than its buffer, the subduction region with all three probabilities
zero), the region fold leaves the accumulated GMPE and weight lists
unchanged and only accumulates region weights. -/
lemma region_fold_unreachable (depth : ℚ) (regions : List RegionSpec)
    (h : ∀ r ∈ regions,
      (r.isSub = false → r.horizontal_buffer < r.distance) ∧
      (r.isSub = true →
        r.crustal_prob = 0 ∧ r.interface_prob = 0 ∧ r.intraslab_prob = 0)) :
    ∀ g w t, ∃ t', region_fold depth regions (g, w, t) = Except.ok (g, w, t') := by
  induction regions with
  | nil => exact fun g w t => ⟨t, rfl⟩
  | cons a rest ih =>
    intro g w t
    have ha := h a (List.mem_cons_self _ _)
    have hrest : ∀ r ∈ rest,
        (r.isSub = false → r.horizontal_buffer < r.distance) ∧
        (r.isSub = true →
          r.crustal_prob = 0 ∧ r.interface_prob = 0 ∧ r.intraslab_prob = 0) :=
      fun r hr => h r (List.mem_cons_of_mem _ hr)
    cases hsub : a.isSub with
    | false =>
      have hskip : region_step depth (g, w, t) a = Except.ok (g, w, t) := by
        unfold region_step
        rw [hsub]
        simp only [Bool.false_eq_true, if_false]
        rw [if_pos (ha.1 hsub)]
      obtain ⟨t', ht'⟩ := ih hrest g w t
      refine ⟨t', ?_⟩
      simp only [region_fold]
      rw [hskip]
      exact ht'
    | true =>
      obtain ⟨hc, hi, hs⟩ := ha.2 hsub
      have hprobs : get_gmpes_from_probs a = ([], []) := by
        unfold get_gmpes_from_probs
        rw [if_pos ⟨hc, hi, hs⟩]
      have hstep : region_step depth (g, w, t) a =
          Except.ok (g, w, t + (if a.distance ≠ 0 then
            1 - a.distance / a.distance else 1)) := by
        unfold region_step
        rw [hsub]
        simp only [if_true]
        rw [if_neg (lt_irrefl a.distance)]
        rw [hprobs]
        simp
      obtain ⟨t', ht'⟩ := ih hrest g w
        (t + (if a.distance ≠ 0 then 1 - a.distance / a.distance else 1))
      refine ⟨t', ?_⟩
      simp only [region_fold]
      rw [hstep]
      exact ht'

/-- C7: when every category is unreachable — each non-subduction
category's distance exceeds its horizontal buffer, and the subduction
category has all three probabilities zero — `get_gmpes_by_region`
raises the fatal no-valid-tectonic-region error instead of returning a
weighted set. -/
theorem no_reachable_region_fatal (depth : ℚ) (regions : List RegionSpec)
    (h : ∀ r ∈ regions,
      (r.isSub = false → r.horizontal_buffer < r.distance) ∧
      (r.isSub = true →
        r.crustal_prob = 0 ∧ r.interface_prob = 0 ∧ r.intraslab_prob = 0)) :
    get_gmpes_by_region depth regions = Except.error "no valid tectonic_region" := by
  obtain ⟨t', ht'⟩ := region_fold_unreachable depth regions h [] [] 0
  unfold get_gmpes_by_region
  rw [ht']
  rfl

/-- Witness for C7: one active-crustal region at distance 250 with
buffer 100, and a subduction region with all probabilities zero. -/
theorem no_reachable_region_fatal_witness :
    get_gmpes_by_region 10
      [⟨false, 250, 100, 5, [("GmpeA", 0, 30)], 0, 0, 0, [], [], []⟩,
       ⟨true, 40, 0, 0, [], 0, 0, 0, ["GmpeB"], ["GmpeC"], ["GmpeD"]⟩] =
      Except.error "no valid tectonic_region" := by
  apply no_reachable_region_fatal
  intro r hr
  rcases List.mem_cons.mp hr with heq | hr2
  · subst heq
    refine ⟨fun _ => by norm_num, fun hcon => ?_⟩
    exact Bool.noConfusion hcon
  · rw [List.mem_singleton.mp hr2]
    refine ⟨fun hcon => ?_, fun _ => ⟨rfl, rfl, rfl⟩⟩
    exact Bool.noConfusion hcon

/-- The nearest-layer loop only ever returns a layer of the list or the
best candidate it started from. -/
lemma find_nearest_mem (layers : List GeoLayer) :
    ∀ min_dist best l, find_nearest layers min_dist best = some l →
      l ∈ layers ∨ best = some l := by
  induction layers with
  | nil =>
    intro min_dist best l h
    exact Or.inr h
  | cons a rest ih =>
    intro min_dist best l h
    simp only [find_nearest] at h
    by_cases h1 : a.distance < min_dist
    · rw [if_pos h1] at h
      by_cases h2 : a.distance = 0
      · rw [if_pos h2] at h
        left
        cases h
        exact List.mem_cons_self _ _
      · rw [if_neg h2] at h
        rcases ih _ _ _ h with hmem | hbest
        · exact Or.inl (List.mem_cons_of_mem _ hmem)
        · left
          cases hbest
          exact List.mem_cons_self _ _
    · rw [if_neg h1] at h
      rcases ih _ _ _ h with hmem | hbest
      · exact Or.inl (List.mem_cons_of_mem _ hmem)
      · exact Or.inr hbest

/-- C9: when no geographic layer's distance is within that layer's
configured horizontal buffer, the override step of
`SelectModule.execute` passes the composed GMPE and weight lists
through entirely unchanged. -/
theorem no_override_pass_through (g : List String) (w : List ℚ)
    (layers : List GeoLayer)
    (h : ∀ l ∈ layers, 0 ≤ l.buffer ∧ l.buffer < l.distance) :
    geographic_override g w layers = (g, w) := by
  unfold geographic_override
  cases hf : find_nearest layers initial_min_dist none with
  | none => rfl
  | some l =>
    dsimp only
    rcases find_nearest_mem layers _ _ l hf with hmem | hbest
    · obtain ⟨hb0, hbd⟩ := h l hmem
      have hd0 : ¬ l.distance = 0 := by
        intro h0
        rw [h0] at hbd
        linarith
      have hdb : ¬ l.distance ≤ l.buffer := not_le.mpr hbd
      rw [if_neg (by
        intro hc
        rcases hc with hc | hc
        · exact hd0 hc
        · exact hdb hc)]
    · exact Option.noConfusion hbest

/-- Witness for C9: one layer at distance 10 with buffer 5; the
composed lists pass through unchanged. -/
theorem no_override_pass_through_witness :
    geographic_override ["GmpeA"] [1] [⟨10, 5, ["GmpeB"], [1]⟩] =
      (["GmpeA"], [1]) := by
  apply no_override_pass_through
  intro l hl
  rw [List.mem_singleton.mp hl]
  exact ⟨by norm_num, by norm_num⟩

/-- C5 counterexample: at distance exactly equal to the layer's buffer
(both 5) the blend weight is 0, but the emitted set is not the pure
global set: the layer's GMPE is appended with weight 0, so the lists
differ from the global `(["GmpeA"], [1])`. -/
theorem override_buffer_counterexample :
    geographic_override ["GmpeA"] [1] [⟨5, 5, ["GmpeB"], [1]⟩] =
      (["GmpeA", "GmpeB"], [1, 0]) ∧
    (["GmpeA", "GmpeB"], ([1, 0] : List ℚ)) ≠ (["GmpeA"], ([1] : List ℚ)) := by
  constructor
  · have hf : find_nearest [⟨5, 5, ["GmpeB"], [1]⟩] initial_min_dist none =
        some ⟨5, 5, ["GmpeB"], [1]⟩ := by
      unfold find_nearest initial_min_dist
      rw [if_pos (by norm_num), if_neg (by norm_num)]
      rfl
    unfold geographic_override
    rw [hf]
    dsimp only
    norm_num
  · intro hc
    have := congrArg Prod.fst hc
    simp at this

/-- C5 (amended): for the nearest geographic layer, at distance 0 the
emitted set is exactly the layer's recomputed weighted set (full
replacement); at distance exactly equal to a positive buffer the blend
weight is 0 and the emitted set is the global set followed by the
layer's GMPEs each carrying weight 0 — equal to the pure global set
only up to those zero-weight entries. -/
theorem override_boundary (g : List String) (w : List ℚ)
    (layers : List GeoLayer) (l : GeoLayer)
    (hfind : find_nearest layers initial_min_dist none = some l) :
    (l.distance = 0 → geographic_override g w layers = (l.gmpes, l.weights)) ∧
    (l.distance = l.buffer → 0 < l.buffer →
      geographic_override g w layers =
        (g ++ l.gmpes, w ++ List.replicate l.weights.length 0)) := by
  constructor
  · intro h0
    unfold geographic_override
    rw [hfind]
    dsimp only
    rw [if_pos (Or.inl h0), if_pos h0]
  · intro hdb hb
    have hd0 : ¬ l.distance = 0 := by
      intro h0
      rw [h0] at hdb
      linarith
    have hbne : ¬ l.buffer = 0 := by
      intro h0
      rw [h0] at hb
      linarith
    unfold geographic_override
    rw [hfind]
    dsimp only
    rw [if_pos (Or.inr (le_of_eq hdb)), if_neg hd0]
    simp only [if_neg hbne]
    rw [show 1 - l.distance / l.buffer = 0 by
      rw [hdb, div_self hbne]; ring]

    have hw : w.map (fun x => x * (1 - 0)) = w := by
      simp
    have hl : l.weights.map (fun x => x * 0) = List.replicate l.weights.length 0 := by
      simp [List.map_const']
    rw [hw, hl]

/-- Witness for C5 (amended): a layer at distance 0 fully replaces the
global set. -/
theorem override_boundary_witness :
    geographic_override ["GmpeA"] [1] [⟨0, 5, ["GmpeB"], [1]⟩] =
      ((⟨0, 5, ["GmpeB"], [1]⟩ : GeoLayer).gmpes,
       (⟨0, 5, ["GmpeB"], [1]⟩ : GeoLayer).weights) := by
  apply (override_boundary ["GmpeA"] [1] [⟨0, 5, ["GmpeB"], [1]⟩]
    ⟨0, 5, ["GmpeB"], [1]⟩ ?_).1 rfl
  unfold find_nearest initial_min_dist
  rw [if_pos (by norm_num), if_pos rfl]

end PyShake
